import Mathlib

/-!
Shallow embedding of the python-fitparse decoder core
(`fitparse/records.py`, `fitparse/base.py`, `fitparse/processors.py`)
and proofs about it.

Modelling conventions:
* Python integers are `ℤ` (or `ℕ` where the source only ever sees
  non-negative values, e.g. raw bytes).
* Python floats are modelled exactly: `PyFloat` is a rational together
  with the special values `inf`, `negInf`, `nan`.  Decoding IEEE-754
  bit patterns into this type is exact; subsequent arithmetic is
  modelled as exact rational arithmetic (Python would round to the
  nearest double).  Every concrete input used in a theorem below only
  involves values on which double arithmetic is exact.
* Python bitwise identities used for arbitrary-precision two's
  complement integers: for `m = 2 ^ b`,
  `x & (m - 1) = x mod m`, `x & ~(m - 1) = x - x mod m`,
  `x >> k = x / 2 ^ k` (floor division), which for a positive modulus /
  divisor coincide with Lean's `Int.emod` / `Int.ediv` (the `%` and `/`
  of `ℤ`).
* Exceptions are modelled with `Except Err`; each Python exception kind
  that can escape the embedded code gets one constructor.
-/

namespace Fitparse

deriving instance DecidableEq for Except

/-- Python exception kinds that the embedded fragments can raise.
`header`/`crc`/`eof`/`parse` are fitparse's `FitHeaderError`,
`FitCRCError`, `FitEOFError` and plain `FitParseError`; the others are
builtin Python exceptions (`TypeError`, `KeyError`, `ValueError`,
`AttributeError`). -/
inductive Err where
  | header
  | crc
  | eof
  | parse
  | typeError
  | keyError
  | valueError
  | attrError
  deriving DecidableEq, Repr

/-- A Python float: exact rational value or one of the IEEE specials. -/
inductive PyFloat where
  | finite (q : ℚ)
  | inf
  | negInf
  | nan
  deriving DecidableEq, Repr

/-- A scalar Python value: `None`, `int`, `float`, `str`, `bytes` (only
seen before string parsing) or a `datetime.time` object (produced by the
`localtime_into_day` processor). -/
inductive Scalar where
  | none
  | int (i : ℤ)
  | float (x : PyFloat)
  | str (s : String)
  | bytes (bs : List ℕ)
  | time (hour minute second : ℤ)
  deriving DecidableEq, Repr

/-- The polymorphic Python values flowing through the decoder: a scalar
or a tuple.  In this code base tuples only ever contain scalars (they
come from `struct.unpack` results and element-wise maps of them), so
`tup` carries a list of scalars. -/
inductive Value where
  | scalar (v : Scalar)
  | tup (l : List Scalar)
  deriving DecidableEq, Repr

/-- Shorthand for the Python `None` value. -/
def Value.none : Value := Value.scalar .none

/-- Shorthand for an `int` value. -/
def Value.int (i : ℤ) : Value := Value.scalar (.int i)

/-- Shorthand for a `float` value. -/
def Value.float (x : PyFloat) : Value := Value.scalar (.float x)

/-- Shorthand for a `str` value. -/
def Value.str (s : String) : Value := Value.scalar (.str s)

/-- Shorthand for a `bytes` value. -/
def Value.bytes (bs : List ℕ) : Value := Value.scalar (.bytes bs)

/-! ## CRC engine (`fitparse/records.py`, class `Crc`) -/

namespace Crc

/-- The 16-entry nibble table `Crc.CRC_TABLE`. -/
def CRC_TABLE : List ℕ :=
  [0x0000, 0xCC01, 0xD801, 0x1400, 0xF001, 0x3C00, 0x2800, 0xE401,
   0xA001, 0x6C00, 0x7800, 0xB401, 0x5000, 0x9C01, 0x8801, 0x4400]

/-- Table lookup; the index is always masked with `0xF` at call sites. -/
def table (i : ℕ) : ℕ := CRC_TABLE.getD i 0

/-- The per-byte body of the `for byte in byte_iter(byte_arr)` loop of
`Crc.calculate`: two nibble steps, low nibble first. -/
def byteStep (crc byte : ℕ) : ℕ :=
  let tmp := table (crc &&& 0xF)
  let crc := (crc >>> 4) &&& 0x0FFF
  let crc := crc ^^^ tmp ^^^ table (byte &&& 0xF)
  let tmp := table (crc &&& 0xF)
  let crc := (crc >>> 4) &&& 0x0FFF
  crc ^^^ tmp ^^^ table ((byte >>> 4) &&& 0xF)

/-- `Crc.calculate(byte_arr, crc=0)`. -/
def calculate (byteArr : List ℕ) (crc : ℕ) : ℕ :=
  byteArr.foldl byteStep crc

/-- `Crc.update`: `if byte_arr: self.value = self.calculate(byte_arr, self.value)`
(an empty byte string is falsy, so the state is untouched). -/
def update (value : ℕ) (byteArr : List ℕ) : ℕ :=
  if byteArr = [] then value else calculate byteArr value

end Crc

/-! ## Compressed accumulation (`FitFileDecoder._apply_compressed_accumulation`) -/

/-- `_apply_compressed_accumulation(raw_value, accumulation, num_bits)` on
Python ints.  `accumulation & ~max_mask` is written as
`accumulation - accumulation % max_value` and `accumulation & max_mask`
as `accumulation % max_value`, the two's-complement identities noted in
the file header. -/
def applyCompressedAccumulationZ (rawValue accumulation : ℤ) (numBits : ℕ) : ℤ :=
  let maxValue : ℤ := 2 ^ numBits
  let baseValue := rawValue + (accumulation - accumulation % maxValue)
  if rawValue < accumulation % maxValue then baseValue + maxValue else baseValue

/-! ## Byte-stream reader (`FitFileDecoder._read`, `_read_struct`) -/

/-- The reader part of the decoder state: the remaining input bytes, the
running CRC (`self._crc`) and the running byte budget
(`self._bytes_left`). -/
structure Reader where
  stream : List ℕ
  crc : ℕ
  bytesLeft : ℤ
  deriving DecidableEq, Repr

/-- `FitFileDecoder._read(size)`: `size <= 0` returns no data at all;
otherwise exactly `size` bytes are consumed (a short read raises
`FitEOFError`), the CRC is updated when `check_crc` is set, and
`bytes_left` is decremented. -/
def readBytes (checkCrc : Bool) (size : ℕ) (r : Reader) : Except Err (List ℕ × Reader) :=
  if size = 0 then .ok ([], r)
  else if size ≤ r.stream.length then
    let data := r.stream.take size
    .ok (data,
      { stream := r.stream.drop size
        crc := if checkCrc then Crc.calculate data r.crc else r.crc
        bytesLeft := r.bytesLeft - size })
  else .error .eof

/-! ## File-header parser (`FitFileDecoder._parse_file_header`) -/

/-- The magic literal `b'.FIT'` as bytes. -/
def dotFIT : List ℕ := [0x2E, 0x46, 0x49, 0x54]

/-- Decode a little-endian 16-bit value from two bytes (the `'H'`
struct format used for CRCs). -/
def leU16 (bs : List ℕ) : ℕ := bs.getD 0 0 + (bs.getD 1 0) <<< 8

/-- Decode a little-endian 32-bit value from four bytes. -/
def leU32 (bs : List ℕ) : ℕ :=
  bs.getD 0 0 + (bs.getD 1 0) <<< 8 + (bs.getD 2 0) <<< 16 + (bs.getD 3 0) <<< 24

/-- The data carried by a successfully parsed file header: the decoded
protocol version nibbles, the profile version split the way the SDK
formats it, and `data_size` (which the caller assigns to
`self._bytes_left`). -/
structure FileHeader where
  headerSize : ℕ
  protocolVersion : ℕ × ℕ
  profileVersion : ℕ × ℕ
  dataSize : ℕ
  deriving DecidableEq, Repr

/-- `_read_and_assert_crc(allow_zero)`: note that `crc_computed` is the
CRC value from before the two stored-CRC bytes are consumed (they are
read afterwards, which also folds them into the running CRC). -/
def readAndAssertCrc (checkCrc allowZero : Bool) (r : Reader) : Except Err Reader :=
  let crcComputed := r.crc
  match readBytes checkCrc 2 r with
  | .error e => .error e
  | .ok (cb, r') =>
    let crcRead := leU16 cb
    if ¬checkCrc then .ok r'
    else if crcComputed = crcRead ∨ (allowZero ∧ crcRead = 0) then .ok r'
    else .error .crc

/-- `FitFileDecoder._parse_file_header`, starting from the `_read(12)`
call (the preceding lines only reset per-file state, which is modelled
where it is used).  Raises `FitHeaderError` when the magic four bytes
are not `.FIT` or when `0 < header_size - 12 < 2`; a `header_size ≥ 14`
additionally consumes and checks the stored header CRC (zero allowed)
and skips the remaining extension bytes. -/
def parseFileHeader (checkCrc : Bool) (r : Reader) : Except Err (FileHeader × Reader) :=
  match readBytes checkCrc 12 r with
  | .error e => .error e
  | .ok (headerData, r1) =>
    if (headerData.drop 8).take 4 ≠ dotFIT then .error .header
    else
      let headerSize := headerData.getD 0 0
      let protocolVerEnc := headerData.getD 1 0
      let profileVerEnc := leU16 (headerData.drop 2)
      let dataSize := leU32 (headerData.drop 4)
      let hdr : FileHeader :=
        { headerSize := headerSize
          protocolVersion := (protocolVerEnc >>> 4, protocolVerEnc &&& ((1 <<< 4) - 1))
          profileVersion := (profileVerEnc / 100, profileVerEnc % 100)
          dataSize := dataSize }
      let extraHeaderSize : ℤ := (headerSize : ℤ) - 12
      if extraHeaderSize > 0 then
        if extraHeaderSize < 2 then .error .header
        else
          match readAndAssertCrc checkCrc true r1 with
          | .error e => .error e
          | .ok r2 =>
            match readBytes checkCrc (extraHeaderSize - 2).toNat r2 with
            | .error e => .error e
            | .ok (_, r3) => .ok (hdr, { r3 with bytesLeft := dataSize })
      else .ok (hdr, { r1 with bytesLeft := dataSize })

/-! ## Strings (`fitparse/records.py`, `parse_string`) -/

/-- True for a UTF-8 continuation byte `0x80..0xBF`. -/
def isCont (b : ℕ) : Bool := 0x80 ≤ b ∧ b ≤ 0xBF

/-- The replacement character U+FFFD. -/
def replChar : Char := Char.ofNat 0xFFFD

/-- UTF-8 decoding with `errors='replace'`: each maximal invalid
subpart is replaced by U+FFFD (the convention CPython follows).  The
sequence validity ranges rule out overlongs and surrogates the way
CPython does. -/
def utf8Decode : List ℕ → List Char
  | [] => []
  | b :: rest =>
    if b < 0x80 then Char.ofNat b :: utf8Decode rest
    else if 0xC2 ≤ b ∧ b ≤ 0xDF then
      match rest with
      | c1 :: rest1 =>
        if isCont c1 then
          Char.ofNat (((b - 0xC0) <<< 6) + (c1 - 0x80)) :: utf8Decode rest1
        else replChar :: utf8Decode (c1 :: rest1)
      | [] => [replChar]
    else if 0xE0 ≤ b ∧ b ≤ 0xEF then
      match rest with
      | c1 :: rest1 =>
        if (b = 0xE0 ∧ 0xA0 ≤ c1 ∧ c1 ≤ 0xBF) ∨
           (b = 0xED ∧ 0x80 ≤ c1 ∧ c1 ≤ 0x9F) ∨
           (b ≠ 0xE0 ∧ b ≠ 0xED ∧ isCont c1) then
          match rest1 with
          | c2 :: rest2 =>
            if isCont c2 then
              Char.ofNat (((b - 0xE0) <<< 12) + ((c1 - 0x80) <<< 6) + (c2 - 0x80)) ::
                utf8Decode rest2
            else replChar :: utf8Decode (c2 :: rest2)
          | [] => [replChar]
        else replChar :: utf8Decode (c1 :: rest1)
      | [] => [replChar]
    else if 0xF0 ≤ b ∧ b ≤ 0xF4 then
      match rest with
      | c1 :: rest1 =>
        if (b = 0xF0 ∧ 0x90 ≤ c1 ∧ c1 ≤ 0xBF) ∨
           (b = 0xF4 ∧ 0x80 ≤ c1 ∧ c1 ≤ 0x8F) ∨
           (b ≠ 0xF0 ∧ b ≠ 0xF4 ∧ isCont c1) then
          match rest1 with
          | c2 :: rest2 =>
            if isCont c2 then
              match rest2 with
              | c3 :: rest3 =>
                if isCont c3 then
                  Char.ofNat (((b - 0xF0) <<< 18) + ((c1 - 0x80) <<< 12) +
                    ((c2 - 0x80) <<< 6) + (c3 - 0x80)) :: utf8Decode rest3
                else replChar :: utf8Decode (c3 :: rest3)
              | [] => [replChar]
            else replChar :: utf8Decode (c2 :: rest2)
          | [] => [replChar]
        else replChar :: utf8Decode (c1 :: rest1)
      | [] => [replChar]
    else replChar :: utf8Decode rest

/-- `parse_string` (Python 3 path): `string.index(0x00)` raises
`ValueError` when there is no NUL byte — the surrounding
`try/except TypeError` only handles the Python 2 `str` case, so the
`ValueError` escapes.  With a terminator, the bytes before it are
decoded as UTF-8 with replacement, and an empty result is turned into
`None` by the trailing `or None`. -/
def parseStringS (bs : List ℕ) : Except Err Scalar :=
  match bs.findIdx? (· == 0) with
  | some endIdx =>
    let s := String.mk (utf8Decode (bs.take endIdx))
    .ok (if s = "" then .none else .str s)
  | Option.none => .error .valueError

/-! ## Base types (`fitparse/records.py`, `BaseType`, `BASE_TYPES`) -/

/-- A `BaseType` record.  `size` is derived from `fmt` via
`struct.calcsize` (see `BaseType.size`).  The per-instance `parse`
lambdas of the source are reproduced in `btParseScalar` /
`btParseByte`, dispatching on the instance (the registry names are
unique); for the two float types the source stores the unpacked
all-ones NaN as `invalid_value` and overrides `parse` with an
`isnan` test, so `invalidValue` is `none` here. -/
structure BaseType where
  name : String
  identifier : ℕ
  fmt : String
  invalidValue : Option ℤ
  deriving DecidableEq, Repr

/-- `struct.calcsize` on the format characters used by the registry. -/
def BaseType.size (bt : BaseType) : ℕ :=
  if bt.fmt = "H" ∨ bt.fmt = "h" then 2
  else if bt.fmt = "I" ∨ bt.fmt = "i" ∨ bt.fmt = "f" then 4
  else if bt.fmt = "d" then 8
  else 1

/-- `BaseType.type_num`: `identifier & 0x1F`. -/
def BaseType.typeNum (bt : BaseType) : ℕ := bt.identifier &&& 0x1F

/-- `BASE_TYPE_BYTE`: the default base type. -/
def BASE_TYPE_BYTE : BaseType :=
  { name := "byte", identifier := 0x0D, fmt := "B", invalidValue := Option.none }

/-- The `BASE_TYPES` dict, in source order. -/
def BASE_TYPES : List (ℕ × BaseType) :=
  [(0x00, { name := "enum", identifier := 0x00, fmt := "B", invalidValue := some 0xFF }),
   (0x01, { name := "sint8", identifier := 0x01, fmt := "b", invalidValue := some 0x7F }),
   (0x02, { name := "uint8", identifier := 0x02, fmt := "B", invalidValue := some 0xFF }),
   (0x83, { name := "sint16", identifier := 0x83, fmt := "h", invalidValue := some 0x7FFF }),
   (0x84, { name := "uint16", identifier := 0x84, fmt := "H", invalidValue := some 0xFFFF }),
   (0x85, { name := "sint32", identifier := 0x85, fmt := "i", invalidValue := some 0x7FFFFFFF }),
   (0x86, { name := "uint32", identifier := 0x86, fmt := "I", invalidValue := some 0xFFFFFFFF }),
   (0x07, { name := "string", identifier := 0x07, fmt := "s", invalidValue := Option.none }),
   (0x88, { name := "float32", identifier := 0x88, fmt := "f", invalidValue := Option.none }),
   (0x89, { name := "float64", identifier := 0x89, fmt := "d", invalidValue := Option.none }),
   (0x0A, { name := "uint8z", identifier := 0x0A, fmt := "B", invalidValue := some 0x0 }),
   (0x8B, { name := "uint16z", identifier := 0x8B, fmt := "H", invalidValue := some 0x0 }),
   (0x8C, { name := "uint32z", identifier := 0x8C, fmt := "I", invalidValue := some 0x0 }),
   (0x0D, BASE_TYPE_BYTE)]

/-- `BASE_TYPES.get(base_type_num, BASE_TYPE_BYTE)`: the fallback used
by `_parse_definition_message` for unknown base-type identifiers. -/
def getBaseType (n : ℕ) : BaseType :=
  match BASE_TYPES.find? (fun p => p.1 == n) with
  | some p => p.2
  | Option.none => BASE_TYPE_BYTE

/-- The `parse` lambda of a registry base type, applied to one unpacked
scalar.  `string` uses `parse_string`; the float types test `isnan`;
everything else is the default
`lambda x: None if x == invalid_value else x`. -/
def btParseScalar (bt : BaseType) (v : Scalar) : Except Err Scalar :=
  if bt.name = "string" then
    match v with
    | .bytes bs => parseStringS bs
    | _ => .error .typeError
  else if bt.name = "float32" ∨ bt.name = "float64" then
    match v with
    | .float .nan => .ok .none
    | .float x => .ok (.float x)
    | .int i => .ok (.int i)
    | _ => .error .typeError
  else
    match bt.invalidValue with
    | some inv => .ok (if v = .int inv then .none else v)
    | Option.none => .ok v

/-- The `parse` lambda of `BASE_TYPE_BYTE`, applied to the whole tuple:
`None if all(b == 0xFF for b in x) else x`. -/
def btParseByte (l : List Scalar) : Value :=
  if l.all (fun s => s = .int 0xFF) then .none else .tup l

/-! ## Endian-aware unpacking (`_read_struct` / `struct.unpack`) -/

/-- Architecture of a definition message (`'<'` / `'>'`). -/
inductive Endian where
  | little
  | big
  deriving DecidableEq, Repr

/-- Little-endian unsigned decode. -/
def decodeUIntLE : List ℕ → ℕ
  | [] => 0
  | b :: rest => b + 256 * decodeUIntLE rest

/-- Unsigned decode with the given byte order. -/
def decodeUInt (e : Endian) (bs : List ℕ) : ℕ :=
  match e with
  | .little => decodeUIntLE bs
  | .big => decodeUIntLE bs.reverse

/-- Two's-complement signed decode with the given byte order. -/
def decodeSInt (e : Endian) (bs : List ℕ) : ℤ :=
  let u := decodeUInt e bs
  let n := bs.length
  if u < 2 ^ (8 * n - 1) then (u : ℤ) else (u : ℤ) - 2 ^ (8 * n)

/-- Exact value of an IEEE-754 single-precision bit pattern. -/
def ieee32 (bits : ℕ) : PyFloat :=
  let s : ℕ := (bits >>> 31) &&& 1
  let e : ℕ := (bits >>> 23) &&& 0xFF
  let m : ℕ := bits &&& 0x7FFFFF
  if e = 0xFF then
    if m = 0 then (if s = 1 then .negInf else .inf) else .nan
  else
    let mag : ℚ :=
      if e = 0 then (m : ℚ) / 2 ^ 149
      else (((2 ^ 23 + m) * 2 ^ e : ℕ) : ℚ) / 2 ^ 150
    .finite (if s = 1 then -mag else mag)

/-- Exact value of an IEEE-754 double-precision bit pattern. -/
def ieee64 (bits : ℕ) : PyFloat :=
  let s : ℕ := (bits >>> 63) &&& 1
  let e : ℕ := (bits >>> 52) &&& 0x7FF
  let m : ℕ := bits &&& (2 ^ 52 - 1)
  if e = 0x7FF then
    if m = 0 then (if s = 1 then .negInf else .inf) else .nan
  else
    let mag : ℚ :=
      if e = 0 then (m : ℚ) / 2 ^ 1074
      else (((2 ^ 52 + m) * 2 ^ e : ℕ) : ℚ) / 2 ^ 1075
    .finite (if s = 1 then -mag else mag)

/-- Split `count` chunks of `size` bytes off a byte list. -/
def listChunks (size : ℕ) : ℕ → List ℕ → List (List ℕ)
  | 0, _ => []
  | count + 1, l => l.take size :: listChunks size count (l.drop size)

/-- Unpack one fixed-width chunk according to the base type's struct
format character. -/
def decodeScalar (e : Endian) (bt : BaseType) (chunk : List ℕ) : Scalar :=
  if bt.fmt = "B" ∨ bt.fmt = "H" ∨ bt.fmt = "I" then .int (decodeUInt e chunk)
  else if bt.fmt = "b" ∨ bt.fmt = "h" ∨ bt.fmt = "i" then .int (decodeSInt e chunk)
  else if bt.fmt = "f" then .float (ieee32 (decodeUInt e chunk))
  else if bt.fmt = "d" then .float (ieee64 (decodeUInt e chunk))
  else .none

/-- `struct.unpack(endian + str(count) + fmt, data)` for the formats the
registry uses: a `"s"` format yields a single `bytes` item of the whole
width, every other format yields `count` fixed-width items. -/
def unpackItems (e : Endian) (bt : BaseType) (count : ℕ) (data : List ℕ) : List Scalar :=
  if bt.fmt = "s" then [.bytes data]
  else (listChunks bt.size count data).map (decodeScalar e bt)

/-- One iteration of `_parse_raw_values_from_data_message`: build the
struct format `str(int(size / base_type.size)) + base_type.fmt`
(`_read_struct` raises `FitParseError` when its calcsize is zero), read
and unpack, then parse: a `byte` group is kept as a single tuple, a
multi-item result is parsed element-wise, a single item is parsed as a
scalar. -/
def readFieldRaw (checkCrc : Bool) (e : Endian) (bt : BaseType) (fieldSize : ℕ)
    (r : Reader) : Except Err (Value × Reader) :=
  let count := fieldSize / bt.size
  let size := count * bt.size
  if size = 0 then .error .parse
  else
    match readBytes checkCrc size r with
    | .error err => .error err
    | .ok (data, r') =>
      let unpacked := unpackItems e bt count data
      if bt.name = "byte" then .ok (btParseByte unpacked, r')
      else
        match unpacked with
        | [single] =>
          match btParseScalar bt single with
          | .ok s => .ok (.scalar s, r')
          | .error err => .error err
        | several =>
          match several.mapM (btParseScalar bt) with
          | .ok l => .ok (.tup l, r')
          | .error err => .error err

/-! ## Profile records (`fitparse/records.py`) -/

/-- A `ReferenceField` of a sub-field: the trigger condition.  In the
profile tables `raw_value` is always an integer. -/
structure ReferenceField where
  name : String
  def_num : ℕ
  value : String
  raw_value : ℤ
  deriving DecidableEq, Repr

/-- A `ComponentField`.  `scale` and `offset` are numbers or `None` in
the source; numbers are modelled as exact rationals. -/
structure ComponentField where
  name : String
  def_num : ℕ
  scale : Option ℚ
  offset : Option ℚ
  units : Option String
  accumulate : Bool
  bits : ℕ
  bit_offset : ℕ
  deriving DecidableEq, Repr

/-- A `FieldType`: a named higher type over a base type with an
enumerated raw-to-name map (possibly empty). -/
structure FieldType where
  name : String
  baseType : BaseType
  values : List (ℤ × String)
  deriving DecidableEq, Repr

/-- The `type` of a field: either a `BaseType` or a `FieldType`
(`FieldAndSubFieldBase.is_base_type` distinguishes the two). -/
inductive FType where
  | base (bt : BaseType)
  | fieldType (ft : FieldType)
  deriving DecidableEq, Repr

/-- `type.values`: `None` on a `BaseType` (modelled as the empty list,
which is just as falsy). -/
def FType.values : FType → List (ℤ × String)
  | .base _ => []
  | .fieldType ft => ft.values

/-- `FieldAndSubFieldBase.base_type`. -/
def FType.baseTypeOf : FType → BaseType
  | .base bt => bt
  | .fieldType ft => ft.baseType

/-- A `SubField`. -/
structure SubField where
  name : String
  def_num : ℕ
  type : FType
  scale : Option ℚ
  offset : Option ℚ
  units : Option String
  components : List ComponentField
  ref_fields : List ReferenceField
  deriving DecidableEq, Repr

/-- A profile `Field`.  `components`/`subfields` equal to `None` in the
source are modelled as empty lists (both are falsy and only iterated). -/
structure Field where
  name : String
  type : FType
  def_num : ℕ
  scale : Option ℚ
  offset : Option ℚ
  units : Option String
  components : List ComponentField
  subfields : List SubField
  deriving DecidableEq, Repr

/-- The result of sub-field resolution: the original field or one of
its sub-fields.  (`DevField`s are modelled as plain `Field`s whose
`scale`, `offset`, `components` and `subfields` are empty, which is
what `DevField.__slots__` guarantees.) -/
inductive FieldOrSub where
  | field (f : Field)
  | sub (s : SubField)
  deriving DecidableEq, Repr

/-- The `type` of the resolved field. -/
def FieldOrSub.type : FieldOrSub → FType
  | .field f => f.type
  | .sub s => s.type

/-- The `components` of the resolved field. -/
def FieldOrSub.components : FieldOrSub → List ComponentField
  | .field f => f.components
  | .sub s => s.components

/-- The `scale` of the resolved field. -/
def FieldOrSub.scale : FieldOrSub → Option ℚ
  | .field f => f.scale
  | .sub s => s.scale

/-- The `offset` of the resolved field. -/
def FieldOrSub.offset : FieldOrSub → Option ℚ
  | .field f => f.offset
  | .sub s => s.offset

/-- The `units` of the resolved field. -/
def FieldOrSub.units : FieldOrSub → Option String
  | .field f => f.units
  | .sub s => s.units

/-- Python `==` between a profile integer and a decoded value: an int
matches an equal int, a float matches when numerically equal, nothing
else compares equal. -/
def pyEqIntValue (i : ℤ) (v : Value) : Bool :=
  match v with
  | .scalar (.int j) => j == i
  | .scalar (.float (.finite q)) => q == (i : ℚ)
  | _ => false

/-- Dictionary lookup `self.type.values.get(raw_value, raw_value)` from
`FieldAndSubFieldBase.render`: integer keys are found by ints and by
numerically equal floats, any other value hashes to a missing key. -/
def renderLookup (vals : List (ℤ × String)) (v : Value) : Value :=
  match v with
  | .scalar (.int i) =>
    match vals.find? (fun p => p.1 == i) with
    | some p => .str p.2
    | Option.none => v
  | .scalar (.float (.finite q)) =>
    if q.den == 1 then
      match vals.find? (fun p => p.1 == q.num) with
      | some p => .str p.2
      | Option.none => v
    else v
  | _ => v

/-- `FieldAndSubFieldBase.render`:
`if self.type.values: return self.type.values.get(raw_value, raw_value)`. -/
def ftypeRender (t : FType) (v : Value) : Value :=
  match t.values with
  | [] => v
  | vals => renderLookup vals v

/-- `render` on a resolved field. -/
def FieldOrSub.render (fs : FieldOrSub) (v : Value) : Value :=
  ftypeRender fs.type v

/-- A `MessageType`: `fields` is the profile dict `def_num → Field`. -/
structure MessageType where
  name : String
  mesg_num : ℕ
  fields : List (ℕ × Field)
  deriving DecidableEq, Repr

/-- A record `MessageHeader`. -/
structure MessageHeader where
  is_definition : Bool
  is_developer_data : Bool
  local_mesg_num : ℕ
  time_offset : Option ℕ
  deriving DecidableEq, Repr

/-- A `FieldDefinition` from a definition message. -/
structure FieldDefinition where
  field : Option Field
  def_num : ℕ
  base_type : BaseType
  size : ℕ
  deriving DecidableEq, Repr

/-- A `DevFieldDefinition`.  Its `field` is the `DevField` from the
developer registry, modelled as a `Field` whose `type` is a base type
and whose `scale`/`offset`/`components`/`subfields` are empty; its
`base_type` equals `field.type`. -/
structure DevFieldDefinition where
  field : Field
  dev_data_index : ℕ
  def_num : ℕ
  size : ℕ
  deriving DecidableEq, Repr

/-- Either kind of field definition, as they appear in the combined
list `def_mesg.field_defs + def_mesg.dev_field_defs`. -/
inductive AnyFieldDef where
  | reg (fd : FieldDefinition)
  | dev (dd : DevFieldDefinition)
  deriving DecidableEq, Repr

/-- `field_def.field` (never `None` for a developer field). -/
def AnyFieldDef.field : AnyFieldDef → Option Field
  | .reg fd => fd.field
  | .dev dd => some dd.field

/-- `field_def.def_num`. -/
def AnyFieldDef.def_num : AnyFieldDef → ℕ
  | .reg fd => fd.def_num
  | .dev dd => dd.def_num

/-- `field_def.base_type` (`DevFieldDefinition.base_type` is the dev
field's own type). -/
def AnyFieldDef.base_type : AnyFieldDef → BaseType
  | .reg fd => fd.base_type
  | .dev dd => dd.field.type.baseTypeOf

/-- `field_def.size`. -/
def AnyFieldDef.size : AnyFieldDef → ℕ
  | .reg fd => fd.size
  | .dev dd => dd.size

/-- A `DefinitionMessage`. -/
structure DefinitionMessage where
  header : MessageHeader
  endian : Endian
  mesg_type : Option MessageType
  mesg_num : ℕ
  field_defs : List FieldDefinition
  dev_field_defs : List DevFieldDefinition
  deriving DecidableEq, Repr

/-- The combined list `def_mesg.field_defs + def_mesg.dev_field_defs`. -/
def DefinitionMessage.allDefs (dm : DefinitionMessage) : List AnyFieldDef :=
  dm.field_defs.map .reg ++ dm.dev_field_defs.map .dev

/-- A `FieldData`. -/
structure FieldData where
  field_def : Option AnyFieldDef
  field : Option FieldOrSub
  parent_field : Option Field
  value : Value
  raw_value : Value
  units : Option String
  deriving DecidableEq, Repr

/-- The `FieldData` constructor as invoked by the decoder (no `units`
argument): `__init__` then defaults `units` to `field.units` when a
field is present (`if not self.units and self.field`). -/
def mkFieldData (field_def : Option AnyFieldDef) (field : Option FieldOrSub)
    (parent_field : Option Field) (value raw_value : Value) : FieldData :=
  { field_def := field_def
    field := field
    parent_field := parent_field
    value := value
    raw_value := raw_value
    units := match field with
             | some f => f.units
             | Option.none => Option.none }

/-! ## Sub-field resolution (`FitFileDecoder._resolve_subfield`) -/

/-- The inner two loops of `_resolve_subfield`: does any
`ref_field` of this sub-field match some
`(field_def.def_num, raw_value)` pair of
`zip(def_mesg.field_defs, raw_values)`? -/
def subfieldMatches (sub : SubField) (fieldDefs : List FieldDefinition)
    (rawValues : List Value) : Bool :=
  sub.ref_fields.any (fun ref =>
    (fieldDefs.zip rawValues).any (fun p =>
      p.1.def_num == ref.def_num && pyEqIntValue ref.raw_value p.2))

/-- `_resolve_subfield`: scan `field.subfields` in order and return the
first sub-field with a matching reference field (paired with the
original field as parent); otherwise the field itself. -/
def resolveSubfield (f : Field) (fieldDefs : List FieldDefinition)
    (rawValues : List Value) : FieldOrSub × Option Field :=
  match f.subfields.find? (fun sub => subfieldMatches sub fieldDefs rawValues) with
  | some sub => (.sub sub, some f)
  | Option.none => (.field f, Option.none)


/-! ## Scale and offset (`FitFileDecoder._apply_scale_offset` /
`ScaleOffsetMixin.apply_scale_offset` — the two are textually the same
transformation) -/

/-- Python truthiness of a `scale` / `offset` slot: `None`, `0` and
`0.0` are falsy. -/
def truthyQ : Option ℚ → Bool
  | some q => q ≠ 0
  | Option.none => false

/-- `x + q` for a float `x` and a finite number `q`. -/
def PyFloat.addQ (x : PyFloat) (q : ℚ) : PyFloat :=
  match x with
  | .finite a => .finite (a + q)
  | x => x

/-- `x / s` for a float `x` and a finite nonzero `s` (scale is truthy
whenever this is called). -/
def PyFloat.divQ (x : PyFloat) (s : ℚ) : PyFloat :=
  match x with
  | .finite a => .finite (a / s)
  | .inf => if s < 0 then .negInf else .inf
  | .negInf => if s < 0 then .inf else .negInf
  | .nan => .nan

/-- The numeric branch of `_apply_scale_offset` on one scalar:
`if field.scale: raw_value = float(raw_value) / field.scale` then
`if field.offset: raw_value = raw_value - field.offset`.  An `int`
divided by the scale becomes a float; subtracting an integral offset
from an unscaled int stays an int. -/
def applyScaleOffsetScalar (scale offset : Option ℚ) (v : Scalar) : Scalar :=
  match v with
  | .int i =>
    if truthyQ scale then
      let x := PyFloat.divQ (.finite (i : ℚ)) (scale.getD 1)
      .float (if truthyQ offset then x.addQ (-(offset.getD 0)) else x)
    else if truthyQ offset then
      let o := offset.getD 0
      if o.den == 1 then .int (i - o.num) else .float (.finite ((i : ℚ) - o))
    else v
  | .float x =>
    let y := if truthyQ scale then x.divQ (scale.getD 1) else x
    .float (if truthyQ offset then y.addQ (-(offset.getD 0)) else y)
  | v => v

/-- `_apply_scale_offset`: tuples element-wise, numeric scalars as
above, everything else unchanged. -/
def applyScaleOffsetV (scale offset : Option ℚ) (v : Value) : Value :=
  match v with
  | .scalar s => .scalar (applyScaleOffsetScalar scale offset s)
  | .tup l => .tup (l.map (applyScaleOffsetScalar scale offset))

/-! ## Component rendering (`ComponentField.render`) -/

/-- The `for value in reversed(raw_value): unpacked_num = (unpacked_num << 8) + value`
loop (the argument is already reversed here).  The accumulator starts
as the int `0`; a float element turns it into a float, after which the
next `<< 8` raises `TypeError`, as does any non-numeric element. -/
def unpackLEloop : List Scalar → Scalar → Except Err Scalar
  | [], acc => .ok acc
  | v :: rest, acc =>
    match acc, v with
    | .int a, .int b => unpackLEloop rest (.int (a * 256 + b))
    | .int a, .float x => unpackLEloop rest (.float (x.addQ (a * 256)))
    | _, _ => .error .typeError

/-- `ComponentField.render`: `None` stays `None`; a tuple is unpacked
as a little-endian byte array; an int result is masked and shifted
(`(raw_value >> bit_offset) & ((1 << bits) - 1)`, written with the
floor-division/mod identities); any other value is returned as is. -/
def ComponentField.render (c : ComponentField) (v : Value) : Except Err Value :=
  match v with
  | .scalar .none => .ok .none
  | .tup l =>
    match unpackLEloop l.reverse (.int 0) with
    | .error e => .error e
    | .ok (.int r) => .ok (.int ((r / 2 ^ c.bit_offset) % 2 ^ c.bits))
    | .ok other => .ok (.scalar other)
  | .scalar (.int r) => .ok (.int ((r / 2 ^ c.bit_offset) % 2 ^ c.bits))
  | other => .ok other

/-! ## Compressed accumulation on decoder values -/

/-- `_apply_compressed_accumulation` as called with decoder values.
The accumulator slot must hold an int (`accumulation & ~max_mask`
raises `TypeError` otherwise); the raw value may be an int or a float
(`raw_value < ...` and `raw_value + ...` accept both), anything else
raises `TypeError` at the comparison. -/
def applyCompressedAccumulationV (rawValue accum : Value) (numBits : ℕ) : Except Err Value :=
  match accum with
  | .scalar (.int a) =>
    match rawValue with
    | .scalar (.int r) => .ok (.int (applyCompressedAccumulationZ r a numBits))
    | .scalar (.float x) =>
      let amod : ℤ := a % 2 ^ numBits
      match x with
      | .finite q =>
        .ok (.float (.finite (q + ((a - amod : ℤ) : ℚ) +
          (if q < (amod : ℚ) then (2 : ℚ) ^ numBits else 0))))
      | .inf => .ok (.float .inf)
      | .negInf => .ok (.float .negInf)
      | .nan => .ok (.float .nan)
    | _ => .error .typeError
  | _ => .error .typeError

/-! ## Decoder state and the data-message pipeline
(`FitFileDecoder._parse_data_message_components`) -/

/-- Python `dict.get` on an association list keyed by ints. -/
def lookupA {α : Type} (l : List (ℕ × α)) (k : ℕ) : Option α :=
  (l.find? (fun p => p.1 == k)).map (fun p => p.2)

/-- Python dict item assignment on an association list. -/
def updateA {α : Type} : List (ℕ × α) → ℕ → α → List (ℕ × α)
  | [], k, v => [(k, v)]
  | (k', v') :: t, k, v => if k' == k then (k, v) :: t else (k', v') :: updateA t k v

/-- The per-file mutable decoder state used by the data-message path:
`self._accumulators` (mesg_num → def_num → accumulated value) and
`self._compressed_ts_accumulator`. -/
structure DecoderState where
  accumulators : List (ℕ × List (ℕ × Value))
  compressedTsAccumulator : Value
  deriving DecidableEq, Repr

/-- Modelled from the spec: `fitparse/profile.py` (the generated
profile tables, among them `FIELD_TYPE_TIMESTAMP`) is not among the
source files; only its importers are.  Per the spec the profile
timestamp field is named `timestamp`, has def_num 253 ("the profile's
TIMESTAMP def_num (253)"), units of seconds, a `date_time` field type
over a `uint32` base with no enumerated values, and no scale, offset,
components or sub-fields. -/
def FIELD_TYPE_TIMESTAMP : Field :=
  { name := "timestamp"
    type := .fieldType
      { name := "date_time"
        baseType := { name := "uint32", identifier := 0x86, fmt := "I", invalidValue := some 0xFFFFFFFF }
        values := [] }
    def_num := 253
    scale := Option.none
    offset := Option.none
    units := some "s"
    components := []
    subfields := [] }

/-- The `# Update compressed timestamp field` step: when the
definition's `def_num` is the profile timestamp number and the raw
value is not `None`, it becomes the new compressed-timestamp
accumulator. -/
def tsUpdate (st : DecoderState) (fd : AnyFieldDef) (rv : Value) : DecoderState :=
  if fd.def_num = FIELD_TYPE_TIMESTAMP.def_num ∧ rv ≠ Value.none then
    { st with compressedTsAccumulator := rv }
  else st

/-- The `if component.accumulate and cmp_raw_value is not None:` block:
look up the per-mesg-num accumulator dict (`KeyError` when the
definition message never initialised it), then the per-def_num slot,
apply the compressed accumulation and store the result back. -/
def accumulateComponent (defMesg : DefinitionMessage) (c : ComponentField) (cmpRaw : Value)
    (st : DecoderState) : Except Err (Value × DecoderState) :=
  if c.accumulate ∧ cmpRaw ≠ Value.none then
    match lookupA st.accumulators defMesg.mesg_num with
    | Option.none => .error .keyError
    | some accums =>
      match lookupA accums c.def_num with
      | Option.none => .error .keyError
      | some accVal =>
        match applyCompressedAccumulationV cmpRaw accVal c.bits with
        | .error e => .error e
        | .ok newVal =>
          .ok (newVal,
            { st with accumulators :=
                updateA st.accumulators defMesg.mesg_num (updateA accums c.def_num newVal) })
  else .ok (cmpRaw, st)

/-- The `# Resolve component fields` loop of
`_parse_data_message_components`, one component at a time: render the
raw value (`except ValueError: continue` skips the component), apply
accumulation, apply the component's own scale/offset, fetch the
component's target field from `def_mesg.mesg_type.fields`
(`AttributeError` when `mesg_type` is `None`, `KeyError` when the
def_num is missing), resolve its sub-field, render, and emit a
`FieldData` with a null `field_def`. -/
def expandComponents (defMesg : DefinitionMessage) (rawValues : List Value) (rawValue : Value) :
    DecoderState → List ComponentField → Except Err (List FieldData × DecoderState)
  | st, [] => .ok ([], st)
  | st, c :: cs =>
    match c.render rawValue with
    | .error .valueError => expandComponents defMesg rawValues rawValue st cs
    | .error e => .error e
    | .ok cmpRaw0 =>
      match accumulateComponent defMesg c cmpRaw0 st with
      | .error e => .error e
      | .ok (cmpRaw1, st1) =>
        let cmpRaw := applyScaleOffsetV c.scale c.offset cmpRaw1
        match defMesg.mesg_type with
        | Option.none => .error .attrError
        | some mt =>
          match lookupA mt.fields c.def_num with
          | Option.none => .error .keyError
          | some cmpField =>
            let resolved := resolveSubfield cmpField defMesg.field_defs rawValues
            let cmpValue := resolved.1.render cmpRaw
            match expandComponents defMesg rawValues rawValue st1 cs with
            | .error e => .error e
            | .ok (restFds, st2) =>
              .ok (mkFieldData Option.none (some resolved.1) resolved.2 cmpValue cmpRaw :: restFds,
                st2)

/-- The main `for field_def, raw_value in zip(...)` loop of
`_parse_data_message_components`, carrying the list of already-emitted
`FieldData`s: an unresolved field contributes its raw value directly;
a resolved field first contributes its expanded components, then its
own `FieldData` with the rendered, scale/offset-adjusted value; the
compressed-timestamp accumulator tracks raw values of the timestamp
def_num along the way. -/
def processPairs (defMesg : DefinitionMessage) (rawValues : List Value) :
    DecoderState → List (AnyFieldDef × Value) → List FieldData →
    Except Err (List FieldData × DecoderState)
  | st, [], acc => .ok (acc, st)
  | st, (fd, rv) :: rest, acc =>
    match fd.field with
    | Option.none =>
      let st1 := tsUpdate st fd rv
      processPairs defMesg rawValues st1 rest
        (acc ++ [mkFieldData (some fd) Option.none Option.none rv rv])
    | some f =>
      let resolved := resolveSubfield f defMesg.field_defs rawValues
      match expandComponents defMesg rawValues rv st resolved.1.components with
      | .error e => .error e
      | .ok (cmpFds, st1) =>
        let value := applyScaleOffsetV resolved.1.scale resolved.1.offset (resolved.1.render rv)
        let st2 := tsUpdate st1 fd rv
        processPairs defMesg rawValues st2 rest
          (acc ++ cmpFds ++ [mkFieldData (some fd) (some resolved.1) resolved.2 value rv])

/-- The tail of `_parse_data_message_components` after the raw values
have been read: run the main loop over
`zip(def_mesg.field_defs + def_mesg.dev_field_defs, raw_values)`, then,
when the header carried a `time_offset`, advance the
compressed-timestamp accumulator by it (5 bits) and append the
synthesized timestamp `FieldData`. -/
def dataMessageFieldDatas (st : DecoderState) (defMesg : DefinitionMessage)
    (rawValues : List Value) (header : MessageHeader) :
    Except Err (List FieldData × DecoderState) :=
  match processPairs defMesg rawValues st (defMesg.allDefs.zip rawValues) [] with
  | .error e => .error e
  | .ok (fds, st1) =>
    match header.time_offset with
    | Option.none => .ok (fds, st1)
    | some t =>
      match applyCompressedAccumulationV (.int t) st1.compressedTsAccumulator 5 with
      | .error e => .error e
      | .ok tsValue =>
        let st2 := { st1 with compressedTsAccumulator := tsValue }
        .ok (fds ++ [mkFieldData Option.none (some (.field FIELD_TYPE_TIMESTAMP)) Option.none
              (ftypeRender FIELD_TYPE_TIMESTAMP.type tsValue) tsValue], st2)

/-- `_parse_raw_values_from_data_message`: read the fields of the
definition message in order; a `FitEOFError` emits a warning and breaks
out of the loop with the values collected so far (the reader is left at
the failed read), while the `FitParseError` of a zero-sized struct
format propagates. -/
def parseRawValues (checkCrc : Bool) (endian : Endian) :
    List AnyFieldDef → Reader → Except Err (List Value × Reader)
  | [], r => .ok ([], r)
  | fd :: rest, r =>
    match readFieldRaw checkCrc endian fd.base_type fd.size r with
    | .error .eof => .ok ([], r)
    | .error e => .error e
    | .ok (v, r') =>
      match parseRawValues checkCrc endian rest r' with
      | .ok (vs, r'') => .ok (v :: vs, r'')
      | .error e => .error e

/-- `_parse_data_message_components` in full: look up the definition
message bound to the header's local message number (`FitParseError`
when the slot is unbound), read the raw values, then build the
`FieldData` list. -/
def parseDataMessageComponents (checkCrc : Bool) (st : DecoderState)
    (localMesgs : List (ℕ × DefinitionMessage)) (header : MessageHeader) (r : Reader) :
    Except Err (MessageHeader × DefinitionMessage × List FieldData × DecoderState × Reader) :=
  match lookupA localMesgs header.local_mesg_num with
  | Option.none => .error .parse
  | some defMesg =>
    match parseRawValues checkCrc defMesg.endian defMesg.allDefs r with
    | .error e => .error e
    | .ok (rawValues, r') =>
      match dataMessageFieldDatas st defMesg rawValues header with
      | .error e => .error e
      | .ok (fds, st') => .ok (header, defMesg, fds, st', r')

/-! ## Value processors (`fitparse/processors.py`) -/

/-- The `datetime.time` constructor: raises `ValueError` unless
`0 ≤ hour < 24`, `0 ≤ minute < 60`, `0 ≤ second < 60` (and `TypeError`
on non-int arguments, handled at the call site). -/
def datetimeTime (hour minute second : ℤ) : Except Err Scalar :=
  if 0 ≤ hour ∧ hour < 24 ∧ 0 ≤ minute ∧ minute < 60 ∧ 0 ≤ second ∧ second < 60 then
    .ok (.time hour minute second)
  else .error .valueError

/-- `FitFileDataProcessor.process_type_localtime_into_day` acting on a
`(value, units)` pair of a `FieldData`: `None` is left alone; an int is
split by `divmod(value, 60)` twice (Python floor divmod, i.e. `ediv` /
`emod`) and handed to `datetime.time`, and the units are cleared; a
float makes `datetime.time` raise `TypeError`, as does `divmod` on any
non-number. -/
def processTypeLocaltimeIntoDay (fd : Value × Option String) :
    Except Err (Value × Option String) :=
  match fd.1 with
  | .scalar .none => .ok fd
  | .scalar (.int v) =>
    let m1 := v / 60
    let s := v % 60
    let h := m1 / 60
    let m := m1 % 60
    match datetimeTime h m s with
    | .ok t => .ok (.scalar t, Option.none)
    | .error e => .error e
  | _ => .error .typeError

/-! ## The scale/offset mixin (`fitparse/records.py`,
`ScaleOffsetMixin`) over exact numbers -/

/-- Python `round`: round half to even on exact rationals. -/
def pyRound (q : ℚ) : ℤ :=
  if q - ⌊q⌋ < 1 / 2 then ⌊q⌋
  else if 1 / 2 < q - ⌊q⌋ then ⌊q⌋ + 1
  else if ⌊q⌋ % 2 = 0 then ⌊q⌋ else ⌊q⌋ + 1

/-- `ScaleOffsetMixin.apply_scale_offset` on one numeric scalar, with
Python numbers modelled as exact rationals:
`if self.scale: raw_value = float(raw_value) / self.scale` then
`if self.offset: raw_value = raw_value - self.offset`. -/
def applyScaleOffsetQ (scale offset x : ℚ) : ℚ :=
  let x1 := if scale ≠ 0 then x / scale else x
  if offset ≠ 0 then x1 - offset else x1

/-- `ScaleOffsetMixin.unapply_scale_offset` on one numeric scalar:
`if self.offset: value = value + self.offset`, then
`if self.scale: value = float(value) * self.scale`, then
`if isinstance(value, float): value = int_type(round(value))`.  With a
truthy scale the value is a float after the multiplication, so the
rounding always applies; this model covers that case (for a falsy
scale the rounding would depend on the int/float class of `x`, which
the rational model does not track — no theorem below uses that case). -/
def unapplyScaleOffsetQ (scale offset x : ℚ) : ℚ :=
  let x1 := if offset ≠ 0 then x + offset else x
  if scale ≠ 0 then (pyRound (x1 * scale) : ℚ) else x1

/-- The tuple branch of `apply_scale_offset`, element-wise. -/
def applyScaleOffsetQList (scale offset : ℚ) (xs : List ℚ) : List ℚ :=
  xs.map (applyScaleOffsetQ scale offset)

/-- The tuple branch of `unapply_scale_offset`, element-wise. -/
def unapplyScaleOffsetQList (scale offset : ℚ) (xs : List ℚ) : List ℚ :=
  xs.map (unapplyScaleOffsetQ scale offset)

/-! ## Theorems -/

/-- C10: the CRC computation is a left fold over the input bytes:
`Crc.calculate(a ++ b, c) = Crc.calculate(b, Crc.calculate(a, c))`, and
updating with an empty byte sequence (or folding an empty sequence)
leaves the state unchanged, so incremental per-read updates equal one
pass over the whole stream. -/
theorem C10_crc_incremental (a b : List ℕ) (c : ℕ) :
    Crc.calculate (a ++ b) c = Crc.calculate b (Crc.calculate a c) ∧
    Crc.update c [] = c ∧
    Crc.calculate [] c = c :=
  ⟨List.foldl_append Crc.byteStep c a b, rfl, rfl⟩

/-- C2: for `0 ≤ raw < 2 ^ bits` and a non-negative accumulator,
`_apply_compressed_accumulation` returns a result within
`[accum - (2^bits - 1), accum + 2^bits]` whose low `bits` bits equal
`raw`; in particular `raw = 0`, `accum = 0x1F`, `bits = 5` rolls over
to `0x20`.  (The call sites store the returned value back into the
accumulator slot: see `accumulateComponent` and
`dataMessageFieldDatas`.) -/
theorem C2_compressed_accumulation (raw accum : ℤ) (bits : ℕ)
    (h0 : 0 ≤ raw) (h1 : raw < 2 ^ bits) (h2 : 0 ≤ accum) :
    (accum - (2 ^ bits - 1) ≤ applyCompressedAccumulationZ raw accum bits ∧
      applyCompressedAccumulationZ raw accum bits ≤ accum + 2 ^ bits) ∧
    (applyCompressedAccumulationZ raw accum bits).toNat &&& (2 ^ bits - 1) = raw.toNat ∧
    applyCompressedAccumulationZ 0 0x1F 5 = 0x20 := by
  have hM : (0 : ℤ) < 2 ^ bits := by positivity
  have hr0 : 0 ≤ accum % 2 ^ bits := Int.emod_nonneg accum (ne_of_gt hM)
  have hrlt : accum % 2 ^ bits < 2 ^ bits := Int.emod_lt_of_pos accum hM
  have hqe : 2 ^ bits * (accum / 2 ^ bits) + accum % 2 ^ bits = accum :=
    Int.ediv_add_emod accum (2 ^ bits)
  have hq0 : 0 ≤ accum / 2 ^ bits := Int.ediv_nonneg h2 hM.le
  have ht0 : 0 ≤ 2 ^ bits * (accum / 2 ^ bits) := mul_nonneg hM.le hq0
  have hres : applyCompressedAccumulationZ raw accum bits =
      (if raw < accum % 2 ^ bits then raw + (accum - accum % 2 ^ bits) + 2 ^ bits
       else raw + (accum - accum % 2 ^ bits)) := rfl
  have hresmod : applyCompressedAccumulationZ raw accum bits % 2 ^ bits = raw := by
    rw [hres]
    split_ifs with hc
    · have he : raw + (accum - accum % 2 ^ bits) + 2 ^ bits =
          raw + 2 ^ bits * (accum / 2 ^ bits + 1) := by rw [mul_add, mul_one]; omega
      rw [he, Int.add_mul_emod_self_left, Int.emod_eq_of_lt h0 h1]
    · have he : raw + (accum - accum % 2 ^ bits) =
          raw + 2 ^ bits * (accum / 2 ^ bits) := by omega
      rw [he, Int.add_mul_emod_self_left, Int.emod_eq_of_lt h0 h1]
  have hresnn : 0 ≤ applyCompressedAccumulationZ raw accum bits := by
    rw [hres]; split_ifs <;> omega
  refine ⟨by rw [hres]; split_ifs <;> omega, ?_, by decide⟩
  rw [Nat.and_pow_two_sub_one_eq_mod]
  have h4 : (((applyCompressedAccumulationZ raw accum bits).toNat % 2 ^ bits : ℕ) : ℤ) =
      ((raw.toNat : ℕ) : ℤ) := by
    push_cast [Int.toNat_of_nonneg h0, Int.toNat_of_nonneg hresnn]
    exact hresmod
  exact_mod_cast h4

/-- C2 witness: the theorem applied at `raw = 0`, `accum = 0x1F`,
`bits = 5`. -/
theorem C2_compressed_accumulation_witness :
    ((0 : ℤ) ≤ 0 ∧ (0 : ℤ) < 2 ^ 5 ∧ (0 : ℤ) ≤ 0x1F) ∧
    applyCompressedAccumulationZ 0 0x1F 5 = 0x20 :=
  ⟨⟨by decide, by decide, by decide⟩,
    (C2_compressed_accumulation 0 0x1F 5 (by decide) (by decide) (by decide)).2.2⟩

/-- C5 (code bug): with no `0x00` terminator in the declared region,
`parse_string` raises `ValueError` (from `bytes.index`; the
`except TypeError` branch is the Python 2 path and does not catch it)
instead of decoding the whole declared length as the spec requires —
decoding even the two ASCII bytes `"hi"` fails, both directly and
through the `string` base type's `parse`, while the same bytes with a
terminator decode fine. -/
theorem C5_unterminated_string_raises :
    parseStringS [0x68, 0x69] = .error .valueError ∧
    btParseScalar (getBaseType 0x07) (.bytes [0x68, 0x69]) = .error .valueError ∧
    parseStringS [0x68, 0x69, 0x00, 0x21] = .ok (.str "hi") := by decide

/-- C4 counterexample: the `BASE_TYPES` registry has no entry at 0x8E
or 0x90 at all, and a field declared with `base_type_id = 0x8E` gets
the `byte` base type (size 1), not an 8-byte `sint64`. -/
theorem C4_counterexample :
    BASE_TYPES.find? (fun p => p.1 == 0x8E) = Option.none ∧
    BASE_TYPES.find? (fun p => p.1 == 0x90) = Option.none ∧
    getBaseType 0x8E = BASE_TYPE_BYTE ∧
    (getBaseType 0x8E).name = "byte" ∧
    (getBaseType 0x8E).size = 1 := by decide

/-- C4 amended: identifiers 0x8E (sint64) and 0x90 (uint64z) are not in
this version's registry — no registered base type is named `sint64` or
`uint64z` — so `BASE_TYPES.get(id, BASE_TYPE_BYTE)` falls back to the
`byte` base type for them (as it does for every identifier absent from
the registry), and a field declared with either identifier and size 8
is read as a tuple of 8 raw bytes, not as a 64-bit integer. -/
theorem C4_base_type_registry :
    (∀ n : ℕ, BASE_TYPES.find? (fun p => p.1 == n) = Option.none →
      getBaseType n = BASE_TYPE_BYTE) ∧
    BASE_TYPES.find? (fun p => p.1 == 0x8E) = Option.none ∧
    BASE_TYPES.find? (fun p => p.1 == 0x90) = Option.none ∧
    (BASE_TYPES.all (fun p => p.2.name != "sint64" && p.2.name != "uint64z")) = true ∧
    getBaseType 0x8E = BASE_TYPE_BYTE ∧
    getBaseType 0x90 = BASE_TYPE_BYTE ∧
    readFieldRaw false .little (getBaseType 0x8E) 8 ⟨[1, 2, 3, 4, 5, 6, 7, 8], 0, 100⟩ =
      .ok (.tup [.int 1, .int 2, .int 3, .int 4, .int 5, .int 6, .int 7, .int 8],
        ⟨[], 0, 92⟩) ∧
    readFieldRaw false .little (getBaseType 0x90) 8 ⟨[1, 2, 3, 4, 5, 6, 7, 8], 0, 100⟩ =
      .ok (.tup [.int 1, .int 2, .int 3, .int 4, .int 5, .int 6, .int 7, .int 8],
        ⟨[], 0, 92⟩) := by
  refine ⟨?_, by decide, by decide, by decide, by decide, by decide, by decide, by decide⟩
  intro n h
  simp only [getBaseType, h]

/-- C4 witness: the fallback clause of the amended theorem applied at
the concrete identifier 0x8E. -/
theorem C4_base_type_registry_witness :
    BASE_TYPES.find? (fun p => p.1 == 0x8E) = Option.none ∧
    getBaseType 0x8E = BASE_TYPE_BYTE :=
  ⟨by decide, C4_base_type_registry.1 0x8E (by decide)⟩

/-- C6 counterexample: at `v = 86400` the processor does not saturate
to the maximum time of day — `datetime.time` rejects hour 24 with
`ValueError` — while `v = 86399` still maps to `23:59:59`. -/
theorem C6_counterexample :
    processTypeLocaltimeIntoDay (Value.int 86400, some "s") = .error .valueError ∧
    processTypeLocaltimeIntoDay (Value.int 86399, some "s") =
      .ok (.scalar (.time 23 59 59), Option.none) := by decide

/-- C6 amended: for every non-null int `0 ≤ v < 86400` the
`localtime_into_day` processor replaces the value with the
`(h, m, s)` time of day obtained by two divmod-by-60 steps and clears
the units; for `v ≥ 86400` the `datetime.time` constructor raises
`ValueError` (the hour reaches 24) — there is no saturation. -/
theorem C6_localtime_into_day (v : ℤ) (u : Option String) (h0 : 0 ≤ v) :
    (v < 86400 → processTypeLocaltimeIntoDay (Value.int v, u) =
      .ok (.scalar (.time (v / 60 / 60) (v / 60 % 60) (v % 60)), Option.none)) ∧
    (86400 ≤ v → processTypeLocaltimeIntoDay (Value.int v, u) = .error .valueError) := by
  have hdef : processTypeLocaltimeIntoDay (Value.int v, u) =
      (match datetimeTime (v / 60 / 60) (v / 60 % 60) (v % 60) with
       | .ok t => .ok (.scalar t, Option.none)
       | .error e => .error e) := rfl
  constructor <;> intro hv
  · rw [hdef]
    simp only [datetimeTime]
    split_ifs with h
    · rfl
    · exact absurd (by omega) h
  · rw [hdef]
    simp only [datetimeTime]
    split_ifs with h
    · exact absurd h (by omega)
    · rfl

/-- C6 witness: the amended theorem applied at `v = 3661` (the value
the repository's own processor test uses), giving `01:01:01`. -/
theorem C6_localtime_into_day_witness :
    ((0 : ℤ) ≤ 3661 ∧ (3661 : ℤ) < 86400) ∧
    processTypeLocaltimeIntoDay (Value.int 3661, some "min") =
      .ok (.scalar (.time 1 1 1), Option.none) := by
  refine ⟨⟨by decide, by decide⟩, ?_⟩
  have h := (C6_localtime_into_day 3661 (some "min") (by decide)).1 (by decide)
  have e1 : (3661 : ℤ) / 60 / 60 = 1 := by decide
  have e2 : (3661 : ℤ) / 60 % 60 = 1 := by decide
  have e3 : (3661 : ℤ) % 60 = 1 := by decide
  rw [e1, e2, e3] at h
  exact h

/-- Helper: `_read` can only fail with `FitEOFError`. -/
theorem readBytes_error_eq_eof (chk : Bool) (n : ℕ) (r : Reader) (e : Err)
    (h : readBytes chk n r = .error e) : e = .eof := by
  unfold readBytes at h
  split_ifs at h
  simp_all

/-- Helper: `_read_and_assert_crc` can only fail with `FitEOFError` or
`FitCRCError`, never `FitHeaderError`. -/
theorem readAndAssertCrc_error (chk az : Bool) (r : Reader) (e : Err)
    (h : readAndAssertCrc chk az r = .error e) : e = .eof ∨ e = .crc := by
  unfold readAndAssertCrc at h
  rcases hrb : readBytes chk 2 r with e2 | pr <;> rw [hrb] at h <;> dsimp only at h
  · have he := readBytes_error_eq_eof chk 2 r e2 hrb
    injection h with h'
    exact .inl (h' ▸ he)
  · split_ifs at h
    all_goals
      first
      | exact (Except.noConfusion h)
      | (injection h with h'
         exact .inr h'.symm)

/-- C3 counterexample: a well-formed 12-byte prefix whose declared
`header_size` is 11 (< 12) and whose magic is `.FIT` parses without any
error — the decoder does not reject `header_size < 12`, contradicting
the claim. -/
theorem C3_counterexample :
    ([11, 16, 152, 0, 5, 0, 0, 0, 0x2E, 0x46, 0x49, 0x54] : List ℕ).getD 0 0 < 12 ∧
    ([11, 16, 152, 0, 5, 0, 0, 0, 0x2E, 0x46, 0x49, 0x54] : List ℕ).drop 8 = dotFIT ∧
    (parseFileHeader true ⟨[11, 16, 152, 0, 5, 0, 0, 0, 0x2E, 0x46, 0x49, 0x54], 0, -1⟩).isOk
      = true := by decide

/-- C3 amended: for every well-formed 12-byte prefix and any
continuation of the stream, `_parse_file_header` raises
`FitHeaderError` exactly when the 4-byte literal at offset 8 is not
`.FIT` or the declared `header_size` is 13 (strictly between 12 and
14).  A `header_size < 12` is accepted without complaint; a
`header_size ≥ 14` may still fail on the extension bytes, but only
with `FitEOFError` or `FitCRCError`. -/
theorem C3_header_error_iff (pre rest : List ℕ) (chk : Bool) (c0 : ℕ) (bl : ℤ)
    (hlen : pre.length = 12) :
    (parseFileHeader chk ⟨pre ++ rest, c0, bl⟩ = .error .header ↔
      (pre.drop 8 ≠ dotFIT ∨ pre.getD 0 0 = 13)) := by
  have h12 : 12 ≤ (pre ++ rest).length := by simp [hlen]
  have htake : (pre ++ rest).take 12 = pre := by rw [← hlen]; exact List.take_left pre rest
  have hdrop : (pre ++ rest).drop 12 = rest := by rw [← hlen]; exact List.drop_left pre rest
  have hrb : readBytes chk 12 ⟨pre ++ rest, c0, bl⟩ =
      .ok (pre, ⟨rest, if chk then Crc.calculate pre c0 else c0, bl - 12⟩) := by
    unfold readBytes
    rw [if_neg (by omega), if_pos h12]
    simp [htake, hdrop]
  have htake4 : (pre.drop 8).take 4 = pre.drop 8 := by
    apply List.take_of_length_le
    simp [hlen]
  simp only [parseFileHeader, hrb, htake4]
  set r1 : Reader := ⟨rest, if chk then Crc.calculate pre c0 else c0, bl - 12⟩ with hr1
  constructor
  · intro h
    by_cases hm : pre.drop 8 = dotFIT
    · right
      rw [if_neg (by simp [hm])] at h
      split_ifs at h with hgt hlt
      · omega
      · rcases hra : readAndAssertCrc chk true r1 with e | r2 <;> rw [hra] at h <;>
          dsimp only at h
        · injection h with h'
          rcases readAndAssertCrc_error chk true r1 e hra with he | he <;> subst he <;>
            exact absurd h' (by decide)
        · rcases hrb2 : readBytes chk ((pre.getD 0 0 : ℤ) - 12 - 2).toNat r2
              with e2 | pr <;> rw [hrb2] at h <;> dsimp only at h
          all_goals
            first
            | exact (Except.noConfusion h)
            | (have he := readBytes_error_eq_eof chk _ r2 e2 hrb2
               injection h with h'
               exact absurd h' (by subst he; decide))
    · exact .inl hm
  · intro h
    by_cases hm : pre.drop 8 = dotFIT
    · have h13 : pre.getD 0 0 = 13 := by
        rcases h with hm' | h13
        · exact absurd hm hm'
        · exact h13
      rw [if_neg (by simp [hm]), if_pos (by omega : ((pre.getD 0 0 : ℤ)) - 12 > 0),
        if_pos (by omega : ((pre.getD 0 0 : ℤ)) - 12 < 2)]
    · rw [if_pos (by simp [hm])]

/-- C3 witness: the amended theorem applied to a concrete 12-byte
prefix with magic `.FIT` and `header_size = 13`, which is rejected with
`FitHeaderError`. -/
theorem C3_header_error_iff_witness :
    ([13, 16, 152, 0, 5, 0, 0, 0, 0x2E, 0x46, 0x49, 0x54] : List ℕ).length = 12 ∧
    parseFileHeader true ⟨[13, 16, 152, 0, 5, 0, 0, 0, 0x2E, 0x46, 0x49, 0x54], 0, -1⟩ =
      .error .header := by
  refine ⟨by decide, ?_⟩
  have h := (C3_header_error_iff [13, 16, 152, 0, 5, 0, 0, 0, 0x2E, 0x46, 0x49, 0x54] []
    true 0 (-1) (by decide)).mpr (by decide)
  simpa using h

/-- Helper: Python's banker rounding is within 1/2 of its argument. -/
theorem pyRound_sub_le (q : ℚ) : |(pyRound q : ℚ) - q| ≤ 1 / 2 := by
  unfold pyRound
  have h0 := Int.floor_le q
  have h1 := Int.lt_floor_add_one q
  split_ifs with ha hb hc <;> rw [abs_le] <;> constructor <;> push_cast <;> linarith

/-- Helper: Python's `round` is the identity on integers. -/
theorem pyRound_intCast (k : ℤ) : pyRound (k : ℚ) = k := by
  simp [pyRound, Int.floor_intCast]

/-- Helper: with a truthy scale, `apply_scale_offset` is `x / s - o`
(subtracting a falsy offset of 0 is skipped but changes nothing). -/
theorem applyScaleOffsetQ_eq (s o x : ℚ) (hs : s ≠ 0) :
    applyScaleOffsetQ s o x = x / s - o := by
  unfold applyScaleOffsetQ
  by_cases ho : o = 0 <;> simp [hs, ho]

/-- Helper: with a truthy scale, `unapply_scale_offset` is
`round((x + o) * s)`. -/
theorem unapplyScaleOffsetQ_eq (s o x : ℚ) (hs : s ≠ 0) :
    unapplyScaleOffsetQ s o x = (pyRound ((x + o) * s) : ℚ) := by
  unfold unapplyScaleOffsetQ
  by_cases ho : o = 0 <;> simp [hs, ho]

/-- Helper: the round-trip is exact on values whose unapplied raw is an
integer. -/
theorem scaleOffset_roundtrip_exact (s : ℤ) (o y : ℚ) (hs : s ≠ 0)
    (h : ∃ k : ℤ, (y + o) * (s : ℚ) = (k : ℚ)) :
    applyScaleOffsetQ (s : ℚ) o (unapplyScaleOffsetQ (s : ℚ) o y) = y := by
  have hsQ : (s : ℚ) ≠ 0 := Int.cast_ne_zero.mpr hs
  obtain ⟨k, hk⟩ := h
  rw [unapplyScaleOffsetQ_eq _ _ _ hsQ, applyScaleOffsetQ_eq _ _ _ hsQ, hk, pyRound_intCast]
  rw [← hk]
  field_simp

/-- C9 counterexample: at `x = 1/4` with integer scale `s = 1` and
offset `o = 0` the round-trip `apply(unapply(x))` returns `0`, which is
off by a full `1/4` — far beyond floating-point tolerance (all values
involved are exactly representable doubles, so the exact-rational model
coincides with Python's float arithmetic here). -/
theorem C9_counterexample :
    applyScaleOffsetQ ((1 : ℤ) : ℚ) 0 (unapplyScaleOffsetQ ((1 : ℤ) : ℚ) 0 (1 / 4)) = 0 ∧
    |applyScaleOffsetQ ((1 : ℤ) : ℚ) 0 (unapplyScaleOffsetQ ((1 : ℤ) : ℚ) 0 (1 / 4)) - 1 / 4|
      = 1 / 4 ∧
    ¬(|applyScaleOffsetQ ((1 : ℤ) : ℚ) 0 (unapplyScaleOffsetQ ((1 : ℤ) : ℚ) 0 (1 / 4)) - 1 / 4|
      ≤ 5 / 100000000) := by
  norm_num [applyScaleOffsetQ, unapplyScaleOffsetQ, pyRound, abs_of_nonneg]

/-- C9 amended: for a nonzero integer scale `s` and any offset `o`, the
round-trip `apply(unapply(x))` lands within `1 / (2 * abs s)` of `x`
(the granularity of the integer raw encoding — not a floating-point
tolerance), and is exactly `x` whenever `(x + o) * s` is an integer,
i.e. whenever `x` is a value the encoding can represent; the exact
round-trip also holds element-wise on tuples. -/
theorem C9_scale_offset_roundtrip (s : ℤ) (o x : ℚ) (hs : s ≠ 0) :
    |applyScaleOffsetQ (s : ℚ) o (unapplyScaleOffsetQ (s : ℚ) o x) - x|
      ≤ 1 / (2 * |(s : ℚ)|) ∧
    ((∃ k : ℤ, (x + o) * (s : ℚ) = (k : ℚ)) →
      applyScaleOffsetQ (s : ℚ) o (unapplyScaleOffsetQ (s : ℚ) o x) = x) ∧
    (∀ xs : List ℚ, (∀ y ∈ xs, ∃ k : ℤ, (y + o) * (s : ℚ) = (k : ℚ)) →
      applyScaleOffsetQList (s : ℚ) o (unapplyScaleOffsetQList (s : ℚ) o xs) = xs) := by
  have hsQ : (s : ℚ) ≠ 0 := Int.cast_ne_zero.mpr hs
  have habs : (0 : ℚ) < |(s : ℚ)| := abs_pos.mpr hsQ
  refine ⟨?_, scaleOffset_roundtrip_exact s o x hs, ?_⟩
  · have key : applyScaleOffsetQ (s : ℚ) o (unapplyScaleOffsetQ (s : ℚ) o x) - x =
        ((pyRound ((x + o) * s) : ℚ) - (x + o) * s) / s := by
      rw [unapplyScaleOffsetQ_eq _ _ _ hsQ, applyScaleOffsetQ_eq _ _ _ hsQ]
      field_simp
      ring
    rw [key, abs_div, ← div_div]
    gcongr
    exact pyRound_sub_le ((x + o) * s)
  · intro xs hxs
    unfold applyScaleOffsetQList unapplyScaleOffsetQList
    rw [List.map_map]
    have hmap : ∀ y ∈ xs,
        (applyScaleOffsetQ (s : ℚ) o ∘ unapplyScaleOffsetQ (s : ℚ) o) y = y := by
      intro y hy
      exact scaleOffset_roundtrip_exact s o y hs (hxs y hy)
    rw [List.map_congr_left hmap]
    simp

/-- C9 witness: the amended theorem applied at `s = 2`, `o = 1`,
`x = 3/2` (so the unapplied raw is the integer 5). -/
theorem C9_scale_offset_roundtrip_witness :
    ((2 : ℤ) ≠ 0 ∧ ((3 / 2 : ℚ) + 1) * ((2 : ℤ) : ℚ) = ((5 : ℤ) : ℚ)) ∧
    applyScaleOffsetQ ((2 : ℤ) : ℚ) 1 (unapplyScaleOffsetQ ((2 : ℤ) : ℚ) 1 (3 / 2)) = 3 / 2 :=
  ⟨⟨by decide, by norm_num⟩,
    (C9_scale_offset_roundtrip 2 1 (3 / 2) (by decide)).2.1 ⟨5, by norm_num⟩⟩

/-- Specification-side activation condition of the amended C1 claim:
SOME reference field of the sub-field matches a `(def_num, raw value)`
pair among the zipped regular field definitions and raw values of the
message. -/
def subfieldActivates (sub : SubField) (fieldDefs : List FieldDefinition)
    (rawValues : List Value) : Prop :=
  ∃ ref ∈ sub.ref_fields, ∃ p ∈ fieldDefs.zip rawValues,
    p.1.def_num = ref.def_num ∧ pyEqIntValue ref.raw_value p.2 = true

/-- The decoder's boolean test agrees with the specification-side
predicate. -/
theorem subfieldMatches_iff (sub : SubField) (fieldDefs : List FieldDefinition)
    (rawValues : List Value) :
    subfieldMatches sub fieldDefs rawValues = true ↔
      subfieldActivates sub fieldDefs rawValues := by
  unfold subfieldMatches subfieldActivates
  simp [List.any_eq_true, Bool.and_eq_true, beq_iff_eq]

/-- Helper: a successful `find?` returns an element satisfying the
predicate at the first satisfying position. -/
theorem find?_eq_some_first {α : Type} (p : α → Bool) (l : List α) (x : α)
    (h : l.find? p = some x) :
    p x = true ∧ ∃ i : ℕ, ∃ hi : i < l.length, l.get ⟨i, hi⟩ = x ∧
      ∀ j : ℕ, ∀ hj : j < l.length, j < i → p (l.get ⟨j, hj⟩) = false := by
  induction l with
  | nil => simp [List.find?] at h
  | cons a t ih =>
    by_cases hpa : p a = true
    · rw [List.find?_cons_of_pos _ hpa] at h
      injection h with h'
      subst h'
      exact ⟨hpa, 0, by simp, rfl, fun j hj hj0 => absurd hj0 (by omega)⟩
    · have hpa' : p a = false := by simpa using hpa
      rw [List.find?_cons_of_neg _ (by simp [hpa'])] at h
      obtain ⟨hx, i, hi, hget, hfirst⟩ := ih h
      refine ⟨hx, i + 1, by simpa using hi, hget, ?_⟩
      intro j hj hj0
      cases j with
      | zero => simpa using hpa'
      | succ j' => exact hfirst j' (by simpa using hj) (by omega)

/-- A two-reference sub-field for the C1 counterexample. -/
def c1RefMatch : ReferenceField :=
  { name := "event", def_num := 0, value := "timer", raw_value := 5 }

/-- The second reference field, which does not match. -/
def c1RefMiss : ReferenceField :=
  { name := "event_type", def_num := 1, value := "start", raw_value := 9 }

/-- A sub-field with two reference fields. -/
def c1Sub : SubField :=
  { name := "both_refs", def_num := 2, type := .base (getBaseType 0x84),
    scale := Option.none, offset := Option.none, units := Option.none,
    components := [], ref_fields := [c1RefMatch, c1RefMiss] }

/-- The field owning `c1Sub`. -/
def c1Field : Field :=
  { name := "data", type := .base (getBaseType 0x84), def_num := 2,
    scale := Option.none, offset := Option.none, units := Option.none,
    components := [], subfields := [c1Sub] }

/-- Field definitions of the surrounding message. -/
def c1Defs : List FieldDefinition :=
  [{ field := Option.none, def_num := 0, base_type := getBaseType 0x00, size := 1 },
   { field := Option.none, def_num := 1, base_type := getBaseType 0x00, size := 1 }]

/-- Raw values of the surrounding message: def_num 0 carries 5 (so
`c1RefMatch` matches) and def_num 1 carries 7 (so `c1RefMiss`, which
wants 9, does not). -/
def c1Raws : List Value := [Value.int 5, Value.int 7]

/-- C1 counterexample: `c1Sub` has two reference fields of which only
the first matches the message's raw values, so under the claim ("every
one of its ref_fields matches") it must not be activated — yet
`_resolve_subfield` activates it: one matching reference suffices in
the code. -/
theorem C1_counterexample :
    resolveSubfield c1Field c1Defs c1Raws = (.sub c1Sub, some c1Field) ∧
    (c1Sub.ref_fields.all (fun ref => (c1Defs.zip c1Raws).any (fun p =>
      p.1.def_num == ref.def_num && pyEqIntValue ref.raw_value p.2))) = false := by decide

/-- C1 amended: `_resolve_subfield` scans the sub-fields in order and
activates the first sub-field for which SOME reference field matches a
`(def_num, raw value)` pair among the already-read raw values of the
same message (paired positionally with the regular field definitions);
when it returns a sub-field, the original field is recorded as parent,
the sub-field is the earliest activating one, and the field itself is
returned (with no parent) exactly when no sub-field activates. -/
theorem C1_subfield_resolution (f : Field) (fieldDefs : List FieldDefinition)
    (rawValues : List Value) :
    (∀ s parent, resolveSubfield f fieldDefs rawValues = (.sub s, parent) →
      parent = some f ∧ subfieldActivates s fieldDefs rawValues ∧
      ∃ i : ℕ, ∃ hi : i < f.subfields.length, f.subfields.get ⟨i, hi⟩ = s ∧
        ∀ j : ℕ, ∀ hj : j < f.subfields.length, j < i →
          ¬ subfieldActivates (f.subfields.get ⟨j, hj⟩) fieldDefs rawValues) ∧
    (resolveSubfield f fieldDefs rawValues = (.field f, Option.none) ↔
      ∀ s ∈ f.subfields, ¬ subfieldActivates s fieldDefs rawValues) := by
  constructor
  · intro s parent h
    unfold resolveSubfield at h
    rcases hf : f.subfields.find? (fun sub => subfieldMatches sub fieldDefs rawValues)
        with _ | sub <;> rw [hf] at h
    · simp at h
    · injection h with ha hb
      injection ha with ha'
      subst ha'
      obtain ⟨hm, i, hi, hget, hfirst⟩ := find?_eq_some_first _ _ _ hf
      refine ⟨hb.symm, (subfieldMatches_iff _ _ _).mp hm, i, hi, hget, ?_⟩
      intro j hj hj0
      rw [← subfieldMatches_iff]
      simp only [Bool.not_eq_true]
      exact hfirst j hj hj0
  · unfold resolveSubfield
    rcases hf : f.subfields.find? (fun sub => subfieldMatches sub fieldDefs rawValues)
        with _ | sub
    · simp only []
      constructor
      · intro _ s hs
        have hfalse := List.find?_eq_none.mp hf s hs
        rw [← subfieldMatches_iff]
        simpa using hfalse
      · intro _
        trivial
    · simp only []
      constructor
      · intro h
        simp at h
      · intro hall
        have hmem := List.mem_of_find?_eq_some hf
        have hp := List.find?_some hf
        exact absurd ((subfieldMatches_iff _ _ _).mp hp) (hall sub hmem)

/-- C1 witness: the amended theorem applied to the concrete
counterexample message, where `c1Sub` is activated through its first
reference field. -/
theorem C1_subfield_resolution_witness :
    resolveSubfield c1Field c1Defs c1Raws = (.sub c1Sub, some c1Field) ∧
    subfieldActivates c1Sub c1Defs c1Raws :=
  ⟨by decide,
    (((C1_subfield_resolution c1Field c1Defs c1Raws).1 c1Sub (some c1Field)) (by decide)).2.1⟩

/-- Helper: left-hand members of a `Forall₂` relation have partners. -/
theorem forall₂_mem_left {α β : Type} {R : α → β → Prop} {l₁ : List α} {l₂ : List β}
    (h : List.Forall₂ R l₁ l₂) : ∀ a ∈ l₁, ∃ b, R a b := by
  induction h with
  | nil => intro a ha; simp at ha
  | cons hr _ ih =>
    intro a ha
    rcases List.mem_cons.mp ha with rfl | ha'
    · exact ⟨_, hr⟩
    · exact ih a ha'

/-- Helper: counting entries with a `some` projection is the length of
the `filterMap`. -/
theorem countP_isSome_eq_length_filterMap {α β : Type} (f : α → Option β) (l : List α) :
    l.countP (fun a => (f a).isSome) = (l.filterMap f).length := by
  induction l with
  | nil => rfl
  | cons a t ih =>
    cases h : f a <;> simp [List.countP_cons, List.filterMap_cons, h, ih]

/-- What one emitted component `FieldData` looks like relative to the
component that produced it: a null `field_def`, the resolved target
field of the component's `def_num`, and that resolution's parent. -/
def componentEmitOK (dm : DefinitionMessage) (raws : List Value) (fd : FieldData)
    (c : ComponentField) : Prop :=
  fd.field_def = Option.none ∧
  ∃ mt tf, dm.mesg_type = some mt ∧ lookupA mt.fields c.def_num = some tf ∧
    fd.field = some (resolveSubfield tf dm.field_defs raws).1 ∧
    fd.parent_field = (resolveSubfield tf dm.field_defs raws).2

/-- The component loop emits one `FieldData` per non-skipped component,
in declaration order (a sublist of the component list), each with a
null `field_def` and the component's resolved target field. -/
theorem expandComponents_spec (dm : DefinitionMessage) (raws : List Value) (rv : Value) :
    ∀ (cs : List ComponentField) (st : DecoderState) (fds : List FieldData) (st' : DecoderState),
      expandComponents dm raws rv st cs = .ok (fds, st') →
      ∃ cs' : List ComponentField, cs'.Sublist cs ∧
        List.Forall₂ (componentEmitOK dm raws) fds cs' := by
  intro cs
  induction cs with
  | nil =>
    intro st fds st' h
    injection h with h'
    injection h' with hfds hst
    exact ⟨[], List.nil_sublist [], by rw [← hfds]; exact List.Forall₂.nil⟩
  | cons c cs ih =>
    intro st fds st' h
    unfold expandComponents at h
    rcases hr : c.render rv with e | cmpRaw0 <;> rw [hr] at h <;> dsimp only at h
    · cases e <;> dsimp only at h <;> try exact (Except.noConfusion h)
      case valueError =>
        obtain ⟨cs', hsub, hf2⟩ := ih st fds st' h
        exact ⟨cs', hsub.cons c, hf2⟩
    · rcases hacc : accumulateComponent dm c cmpRaw0 st with e | ⟨cmpRaw1, st1⟩ <;>
        rw [hacc] at h <;> dsimp only at h
      · exact (Except.noConfusion h)
      · rcases hmt : dm.mesg_type with _ | mt <;> rw [hmt] at h <;> dsimp only at h
        · exact (Except.noConfusion h)
        · rcases hlk : lookupA mt.fields c.def_num with _ | cmpField <;> rw [hlk] at h <;>
            dsimp only at h
          · exact (Except.noConfusion h)
          · rcases hrec : expandComponents dm raws rv st1 cs with e2 | ⟨restFds, st2⟩ <;>
              rw [hrec] at h <;> dsimp only at h
            · exact (Except.noConfusion h)
            · injection h with h'
              injection h' with hfds hst
              obtain ⟨cs', hsub, hf2⟩ := ih st1 restFds st2 hrec
              refine ⟨c :: cs', hsub.cons₂ c, ?_⟩
              rw [← hfds]
              exact List.Forall₂.cons ⟨rfl, mt, cmpField, hmt, hlk, rfl, rfl⟩ hf2

/-- Every `FieldData` emitted by the component loop has a null
`field_def`. -/
theorem expandComponents_field_def_none (dm : DefinitionMessage) (raws : List Value)
    (rv : Value) (cs : List ComponentField) (st : DecoderState) (fds : List FieldData)
    (st' : DecoderState) (h : expandComponents dm raws rv st cs = .ok (fds, st')) :
    ∀ fd ∈ fds, fd.field_def = Option.none := by
  obtain ⟨cs', _, hf2⟩ := expandComponents_spec dm raws rv cs st fds st' h
  intro fd hfd
  obtain ⟨c, hc⟩ := forall₂_mem_left hf2 fd hfd
  exact hc.1

/-- The `field_def` slots attached by the main loop are exactly the
zipped field definitions, in order, on top of those already in the
accumulator. -/
theorem processPairs_filterMap (dm : DefinitionMessage) (raws : List Value) :
    ∀ (pairs : List (AnyFieldDef × Value)) (st : DecoderState) (acc fds : List FieldData)
      (st' : DecoderState),
      processPairs dm raws st pairs acc = .ok (fds, st') →
      fds.filterMap (fun fd => fd.field_def) =
        acc.filterMap (fun fd => fd.field_def) ++ pairs.map Prod.fst := by
  intro pairs
  induction pairs with
  | nil =>
    intro st acc fds st' h
    injection h with h'
    injection h' with hfds hst
    rw [← hfds]
    simp
  | cons p rest ih =>
    obtain ⟨fd, rv⟩ := p
    intro st acc fds st' h
    unfold processPairs at h
    rcases hff : fd.field with _ | f <;> rw [hff] at h <;> dsimp only at h
    · have hmain := ih _ _ fds st' h
      rw [hmain, List.filterMap_append]
      simp [mkFieldData]
    · rcases hec : expandComponents dm raws rv st
          (resolveSubfield f dm.field_defs raws).1.components with e | ⟨cmpFds, st1⟩ <;>
        rw [hec] at h <;> dsimp only at h
      · exact (Except.noConfusion h)
      · have hmain := ih _ _ fds st' h
        have hnone : cmpFds.filterMap (fun fd => fd.field_def) = [] := by
          rw [List.filterMap_eq_nil_iff]
          exact expandComponents_field_def_none dm raws rv _ st cmpFds st1 hec
        rw [hmain, List.filterMap_append, List.filterMap_append, hnone]
        simp [mkFieldData]

/-- What one group of emitted `FieldData`s looks like for one
`(field definition, raw value)` pair: the expanded component entries
first (each with a null `field_def`, ordered along a sublist of the
resolved field's declared components), then the pair's own entry
carrying the `field_def`. -/
def groupOK (dm : DefinitionMessage) (raws : List Value) (g : List FieldData)
    (p : AnyFieldDef × Value) : Prop :=
  ∃ cmps own, g = cmps ++ [own] ∧ own.field_def = some p.1 ∧
    (∀ fd ∈ cmps, fd.field_def = Option.none) ∧
    (match p.1.field with
     | Option.none => cmps = [] ∧ own.field = Option.none
     | some f =>
       own.field = some (resolveSubfield f dm.field_defs raws).1 ∧
       own.parent_field = (resolveSubfield f dm.field_defs raws).2 ∧
       ∃ cs', cs'.Sublist (resolveSubfield f dm.field_defs raws).1.components ∧
         List.Forall₂ (componentEmitOK dm raws) cmps cs')

/-- The main loop produces one `groupOK` group per pair, in order. -/
theorem processPairs_spec (dm : DefinitionMessage) (raws : List Value) :
    ∀ (pairs : List (AnyFieldDef × Value)) (st : DecoderState) (acc fds : List FieldData)
      (st' : DecoderState),
      processPairs dm raws st pairs acc = .ok (fds, st') →
      ∃ groups : List (List FieldData), fds = acc ++ groups.flatten ∧
        List.Forall₂ (groupOK dm raws) groups pairs := by
  intro pairs
  induction pairs with
  | nil =>
    intro st acc fds st' h
    injection h with h'
    injection h' with hfds hst
    exact ⟨[], by rw [← hfds]; simp, List.Forall₂.nil⟩
  | cons p rest ih =>
    obtain ⟨fd, rv⟩ := p
    intro st acc fds st' h
    unfold processPairs at h
    rcases hff : fd.field with _ | f <;> rw [hff] at h <;> dsimp only at h
    · obtain ⟨groups, hfds, hf2⟩ := ih _ _ fds st' h
      refine ⟨[mkFieldData (some fd) Option.none Option.none rv rv] :: groups, ?_, ?_⟩
      · rw [hfds]; simp
      · refine List.Forall₂.cons ?_ hf2
        refine ⟨[], mkFieldData (some fd) Option.none Option.none rv rv, by simp, rfl,
          by simp, ?_⟩
        simp only [hff]
        trivial
    · rcases hec : expandComponents dm raws rv st
          (resolveSubfield f dm.field_defs raws).1.components with e | ⟨cmpFds, st1⟩ <;>
        rw [hec] at h <;> dsimp only at h
      · exact (Except.noConfusion h)
      · obtain ⟨groups, hfds, hf2⟩ := ih _ _ fds st' h
        obtain ⟨cs', hsub, hcf2⟩ := expandComponents_spec dm raws rv _ st cmpFds st1 hec
        refine ⟨(cmpFds ++ [mkFieldData (some fd)
            (some (resolveSubfield f dm.field_defs raws).1)
            (resolveSubfield f dm.field_defs raws).2
            (applyScaleOffsetV (resolveSubfield f dm.field_defs raws).1.scale
              (resolveSubfield f dm.field_defs raws).1.offset
              ((resolveSubfield f dm.field_defs raws).1.render rv)) rv]) :: groups, ?_, ?_⟩
        · rw [hfds]; simp
        · refine List.Forall₂.cons ?_ hf2
          refine ⟨cmpFds, _, rfl, rfl, ?_, ?_⟩
          · intro fd2 hfd2
            obtain ⟨c2, hc2⟩ := forall₂_mem_left hcf2 fd2 hfd2
            exact hc2.1
          · simp only [hff]
            exact ⟨rfl, rfl, cs', hsub, hcf2⟩

/-- C7: for every data message decoded without premature end of stream
(so that there is one raw value per field definition), the top-level
`FieldData` entries with a non-null `field_def` are exactly the regular
plus developer field definitions, in order — in particular their count
is the number of (regular + developer) field definitions; every other
entry (component expansions, synthesized timestamp) carries
`field_def = None`. -/
theorem C7_field_def_count (st : DecoderState) (dm : DefinitionMessage) (raws : List Value)
    (header : MessageHeader) (fds : List FieldData) (st' : DecoderState)
    (hlen : raws.length = dm.field_defs.length + dm.dev_field_defs.length)
    (hok : dataMessageFieldDatas st dm raws header = .ok (fds, st')) :
    fds.countP (fun fd => fd.field_def.isSome) =
      dm.field_defs.length + dm.dev_field_defs.length ∧
    fds.filterMap (fun fd => fd.field_def) = dm.allDefs := by
  have hall : dm.allDefs.length = dm.field_defs.length + dm.dev_field_defs.length := by
    simp [DefinitionMessage.allDefs]
  have hle : dm.allDefs.length ≤ raws.length := by omega
  have hzip : (dm.allDefs.zip raws).map Prod.fst = dm.allDefs := List.map_fst_zip _ _ hle
  unfold dataMessageFieldDatas at hok
  rcases hpp : processPairs dm raws st (dm.allDefs.zip raws) [] with e | ⟨fds0, st1⟩ <;>
    rw [hpp] at hok <;> dsimp only at hok
  · exact (Except.noConfusion hok)
  · have hfm := processPairs_filterMap dm raws _ st [] fds0 st1 hpp
    simp only [List.filterMap_nil, List.nil_append] at hfm
    rw [hzip] at hfm
    rcases hto : header.time_offset with _ | t <;> rw [hto] at hok <;> dsimp only at hok
    · injection hok with h'
      injection h' with hfds hst
      constructor
      · rw [← hfds, countP_isSome_eq_length_filterMap, hfm, hall]
      · rw [← hfds]
        exact hfm
    · rcases hca : applyCompressedAccumulationV (.int t) st1.compressedTsAccumulator 5
          with e | tsv <;> rw [hca] at hok <;> dsimp only at hok
      · exact (Except.noConfusion hok)
      · injection hok with h'
        injection h' with hfds hst
        have hts : (fds0 ++ [mkFieldData Option.none (some (.field FIELD_TYPE_TIMESTAMP))
            Option.none (ftypeRender FIELD_TYPE_TIMESTAMP.type tsv) tsv]).filterMap
              (fun fd => fd.field_def) = dm.allDefs := by
          rw [List.filterMap_append, hfm]
          simp [mkFieldData]
        constructor
        · rw [← hfds, countP_isSome_eq_length_filterMap, hts, hall]
        · rw [← hfds]
          exact hts

/-- C8: in every decoded data message's field list, the `FieldData`
entries expanded from a field's components appear before that field's
own entry, in the order the components are declared (a sublist of the
resolved field's component list), and when the message header carries a
`time_offset`, the synthesized timestamp entry is the last element. -/
theorem C8_field_data_order (st : DecoderState) (dm : DefinitionMessage) (raws : List Value)
    (header : MessageHeader) (fds : List FieldData) (st' : DecoderState)
    (hok : dataMessageFieldDatas st dm raws header = .ok (fds, st')) :
    ∃ groups : List (List FieldData),
      List.Forall₂ (groupOK dm raws) groups (dm.allDefs.zip raws) ∧
      (header.time_offset = Option.none → fds = groups.flatten) ∧
      (∀ t, header.time_offset = some t → ∃ tsfd,
        fds = groups.flatten ++ [tsfd] ∧ tsfd.field_def = Option.none ∧
        tsfd.field = some (.field FIELD_TYPE_TIMESTAMP) ∧
        tsfd.parent_field = Option.none) := by
  unfold dataMessageFieldDatas at hok
  rcases hpp : processPairs dm raws st (dm.allDefs.zip raws) [] with e | ⟨fds0, st1⟩ <;>
    rw [hpp] at hok <;> dsimp only at hok
  · exact (Except.noConfusion hok)
  · obtain ⟨groups, hfds0, hf2⟩ := processPairs_spec dm raws _ st [] fds0 st1 hpp
    rw [List.nil_append] at hfds0
    rcases hto : header.time_offset with _ | t <;> rw [hto] at hok <;> dsimp only at hok
    · injection hok with h'
      injection h' with hfds hst
      refine ⟨groups, hf2, fun _ => by rw [← hfds, hfds0], fun t ht => ?_⟩
      exact Option.noConfusion ht
    · rcases hca : applyCompressedAccumulationV (.int t) st1.compressedTsAccumulator 5
          with e | tsv <;> rw [hca] at hok <;> dsimp only at hok
      · exact (Except.noConfusion hok)
      · injection hok with h'
        injection h' with hfds hst
        refine ⟨groups, hf2, fun hn => Option.noConfusion hn, fun t' ht' => ?_⟩
        have htt : t = t' := by injection ht'
        subst htt
        exact ⟨mkFieldData Option.none (some (.field FIELD_TYPE_TIMESTAMP)) Option.none
          (ftypeRender FIELD_TYPE_TIMESTAMP.type tsv) tsv,
          by rw [← hfds, hfds0], rfl, rfl, rfl⟩

/-! ## A concrete message for the C7/C8 witnesses, modelled on the
profile's `event` message and the repository's own
`test_subfield_components` test. -/

/-- The `score` component of the `sport_point` sub-field. -/
def exScoreCmp : ComponentField :=
  { name := "score", def_num := 7, scale := Option.none, offset := Option.none,
    units := Option.none, accumulate := false, bits := 16, bit_offset := 0 }

/-- The `opponent_score` component of the `sport_point` sub-field. -/
def exOppCmp : ComponentField :=
  { name := "opponent_score", def_num := 8, scale := Option.none, offset := Option.none,
    units := Option.none, accumulate := false, bits := 16, bit_offset := 16 }

/-- The `score` target field. -/
def exScoreField : Field :=
  { name := "score", type := .base (getBaseType 0x84), def_num := 7, scale := Option.none,
    offset := Option.none, units := Option.none, components := [], subfields := [] }

/-- The `opponent_score` target field. -/
def exOppField : Field :=
  { name := "opponent_score", type := .base (getBaseType 0x84), def_num := 8,
    scale := Option.none, offset := Option.none, units := Option.none, components := [],
    subfields := [] }

/-- The `sport_point` sub-field of `data`, keyed on `event = 33`. -/
def exSportPointSub : SubField :=
  { name := "sport_point", def_num := 3, type := .base (getBaseType 0x86),
    scale := Option.none, offset := Option.none, units := Option.none,
    components := [exScoreCmp, exOppCmp],
    ref_fields := [{ name := "event", def_num := 0, value := "sport_point",
                     raw_value := 33 }] }

/-- The `event` field with its enum rendering. -/
def exEventField : Field :=
  { name := "event",
    type := .fieldType { name := "event", baseType := getBaseType 0x00,
                         values := [(33, "sport_point")] },
    def_num := 0, scale := Option.none, offset := Option.none, units := Option.none,
    components := [], subfields := [] }

/-- The `data` field owning the sub-field. -/
def exDataField : Field :=
  { name := "data", type := .base (getBaseType 0x86), def_num := 3, scale := Option.none,
    offset := Option.none, units := Option.none, components := [],
    subfields := [exSportPointSub] }

/-- The `event` message type (global number 21). -/
def exEventMT : MessageType :=
  { name := "event", mesg_num := 21,
    fields := [(0, exEventField), (3, exDataField), (7, exScoreField), (8, exOppField)] }

/-- Field definition of `event`. -/
def exFd0 : FieldDefinition :=
  { field := some exEventField, def_num := 0, base_type := getBaseType 0x00, size := 1 }

/-- Field definition of `data`. -/
def exFd3 : FieldDefinition :=
  { field := some exDataField, def_num := 3, base_type := getBaseType 0x86, size := 4 }

/-- The definition message for the example. -/
def exDm : DefinitionMessage :=
  { header := { is_definition := true, is_developer_data := false, local_mesg_num := 1,
                time_offset := Option.none }
    endian := .little, mesg_type := some exEventMT, mesg_num := 21,
    field_defs := [exFd0, exFd3], dev_field_defs := [] }

/-- Initial decoder state for the example. -/
def exSt : DecoderState := { accumulators := [], compressedTsAccumulator := Value.int 0 }

/-- A compressed-timestamp data header (`time_offset = 5`). -/
def exHdr : MessageHeader :=
  { is_definition := false, is_developer_data := false, local_mesg_num := 1,
    time_offset := some 5 }

/-- Raw values: `event = 33` (sport_point) and
`data = 123 + 456·2^16`. -/
def exRaws : List Value := [Value.int 33, Value.int (123 + 456 * 65536)]

/-- The decoded result of the example message. -/
def exResult : Except Err (List FieldData × DecoderState) :=
  dataMessageFieldDatas exSt exDm exRaws exHdr

/-- The emitted field list of the example message. -/
def exFds : List FieldData :=
  match exResult with
  | .ok p => p.1
  | .error _ => []

/-- The final decoder state of the example message. -/
def exSt2 : DecoderState :=
  match exResult with
  | .ok p => p.2
  | .error _ => exSt

/-- C7 witness: the theorem applied to the concrete example message —
two field definitions, five emitted entries (`score`,
`opponent_score`, `data`, `event`, timestamp), exactly two of which
carry a non-null `field_def`. -/
theorem C7_field_def_count_witness :
    exRaws.length = exDm.field_defs.length + exDm.dev_field_defs.length ∧
    exFds.countP (fun fd => fd.field_def.isSome) = 2 ∧
    exFds.length = 5 :=
  ⟨by decide, by
    have h := C7_field_def_count exSt exDm exRaws exHdr exFds exSt2 (by decide) rfl
    exact h.1.trans (by decide), by decide⟩

/-- C8 witness: the theorem applied to the concrete example message
(with a compressed-timestamp header). -/
theorem C8_field_data_order_witness :
    ∃ groups : List (List FieldData),
      List.Forall₂ (groupOK exDm exRaws) groups (exDm.allDefs.zip exRaws) ∧
      (exHdr.time_offset = Option.none → exFds = groups.flatten) ∧
      (∀ t, exHdr.time_offset = some t → ∃ tsfd,
        exFds = groups.flatten ++ [tsfd] ∧ tsfd.field_def = Option.none ∧
        tsfd.field = some (.field FIELD_TYPE_TIMESTAMP) ∧
        tsfd.parent_field = Option.none) :=
  C8_field_data_order exSt exDm exRaws exHdr exFds exSt2 rfl

end Fitparse
